import Mathlib

/-!
Verification of the NDC host simulator's framing and opcode-resolution
protocol (`server.js`), shallowly embedded: byte buffers are `List Nat`
(each element a byte value), JS strings are Lean `String`s, and the
JS object used as the opcode→response mapping is an association list.
-/

namespace NdcHost

/-- The replacement character U+FFFD emitted by a non-fatal text decoder. -/
def replChar : Char := Char.ofNat 0xFFFD

/-- WHATWG UTF-8 decode with replacement (the behaviour of
`new TextDecoder("utf-8", { fatal: false })`): well-formed sequences decode
to their scalar values; an invalid lead byte or truncated sequence yields
one U+FFFD, and decoding resumes at the first offending byte. -/
def utf8DecodeReplace : List Nat → List Char
  | [] => []
  | b :: rest =>
    if b < 0x80 then Char.ofNat b :: utf8DecodeReplace rest
    else if b < 0xC2 then replChar :: utf8DecodeReplace rest
    else if b < 0xE0 then
      match rest with
      | [] => [replChar]
      | c1 :: rest1 =>
        if 0x80 ≤ c1 ∧ c1 < 0xC0 then
          Char.ofNat ((b - 0xC0) * 64 + (c1 - 0x80)) :: utf8DecodeReplace rest1
        else replChar :: utf8DecodeReplace (c1 :: rest1)
    else if b < 0xF0 then
      match rest with
      | [] => [replChar]
      | c1 :: rest1 =>
        if (if b = 0xE0 then 0xA0 else 0x80) ≤ c1 ∧
            c1 ≤ (if b = 0xED then 0x9F else 0xBF) then
          match rest1 with
          | [] => [replChar]
          | c2 :: rest2 =>
            if 0x80 ≤ c2 ∧ c2 < 0xC0 then
              Char.ofNat ((b - 0xE0) * 4096 + (c1 - 0x80) * 64 + (c2 - 0x80)) ::
                utf8DecodeReplace rest2
            else replChar :: utf8DecodeReplace (c2 :: rest2)
        else replChar :: utf8DecodeReplace (c1 :: rest1)
    else if b < 0xF5 then
      match rest with
      | [] => [replChar]
      | c1 :: rest1 =>
        if (if b = 0xF0 then 0x90 else 0x80) ≤ c1 ∧
            c1 ≤ (if b = 0xF4 then 0x8F else 0xBF) then
          match rest1 with
          | [] => [replChar]
          | c2 :: rest2 =>
            if 0x80 ≤ c2 ∧ c2 < 0xC0 then
              match rest2 with
              | [] => [replChar]
              | c3 :: rest3 =>
                if 0x80 ≤ c3 ∧ c3 < 0xC0 then
                  Char.ofNat ((b - 0xF0) * 262144 + (c1 - 0x80) * 4096 +
                      (c2 - 0x80) * 64 + (c3 - 0x80)) :: utf8DecodeReplace rest3
                else replChar :: utf8DecodeReplace (c3 :: rest3)
            else replChar :: utf8DecodeReplace (c2 :: rest2)
        else replChar :: utf8DecodeReplace (c1 :: rest1)
    else replChar :: utf8DecodeReplace rest

/-- Decode a byte segment to a string, as `TextDecoder.decode` does. -/
def decodeSegment (seg : List Nat) : String := String.mk (utf8DecodeReplace seg)

/-- The raw 0x1C split of `splitUint8ArrayBy0x1C` (`server.js` lines 79-90):
one segment per separator occurrence plus the trailing segment. -/
def split0x1C : List Nat → List (List Nat)
  | [] => [[]]
  | b :: rest =>
    if b = 0x1C then [] :: split0x1C rest
    else
      match split0x1C rest with
      | [] => [[b]]
      | seg :: segs => (b :: seg) :: segs

/-- `splitUint8ArrayBy0x1C` (`server.js` lines 71-102): split the bytes on
0x1C, decode each segment, and, when `includeEmpty` is false, drop the
empty strings. -/
def splitUint8ArrayBy0x1C (input : List Nat) (includeEmpty : Bool) : List String :=
  let strings := (split0x1C input).map decodeSegment
  if includeEmpty then strings else strings.filter (fun s => s.length > 0)

/-- `extractOpcode` (`server.js` lines 19-44): drop the 2 header bytes,
split on 0x1C discarding empty fields, and produce `"GIS"` exactly when
field index 2 is the string `"B0000"`. -/
def extractOpcode (message : List Nat) : Option String :=
  if message.length ≤ 2 then none
  else
    let fields := splitUint8ArrayBy0x1C (message.drop 2) false
    if fields.length = 0 then none
    else if fields.get? 2 = some "B0000" then some "GIS" else none

/-- The control-character constants of `server.js` lines 9-12, each a
one-character string (`String.fromCharCode`). -/
def FS : String := String.mk [Char.ofNat 0x1C]

/-- Group separator, `String.fromCharCode(0x1d)`. -/
def GS : String := String.mk [Char.ofNat 0x1D]

/-- Shift-out, `String.fromCharCode(0x0e)`. -/
def SO : String := String.mk [Char.ofNat 0x0E]

/-- Shift-in, `String.fromCharCode(0x0f)`. -/
def SI : String := String.mk [Char.ofNat 0x0F]

/-- Fuel-indexed worker for `jsReplaceAll`; the fuel only forces
termination and is irrelevant once it covers the input length. -/
def jsReplaceAllAux (pat rep : List Char) : Nat → List Char → List Char
  | _, [] => []
  | 0, s => s
  | fuel + 1, c :: rest =>
    if pat ≠ [] ∧ pat.isPrefixOf (c :: rest) then
      rep ++ jsReplaceAllAux pat rep fuel ((c :: rest).drop pat.length)
    else c :: jsReplaceAllAux pat rep fuel rest

/-- JS `String.prototype.replace` with a global literal pattern: scan left
to right, replace every non-overlapping occurrence of `pat`. -/
def jsReplaceAll (pat rep s : List Char) : List Char :=
  jsReplaceAllAux pat rep s.length s

/-- UTF-8 encoding of one scalar value (what `TextEncoder` emits per char). -/
def utf8EncodeChar (c : Char) : List Nat :=
  let n := c.toNat
  if n < 0x80 then [n]
  else if n < 0x800 then [0xC0 + n / 64, 0x80 + n % 64]
  else if n < 0x10000 then
    [0xE0 + n / 4096, 0x80 + (n / 64) % 64, 0x80 + n % 64]
  else
    [0xF0 + n / 262144, 0x80 + (n / 4096) % 64, 0x80 + (n / 64) % 64, 0x80 + n % 64]

/-- UTF-8 encode a character list (`new TextEncoder().encode`). -/
def utf8EncodeChars (l : List Char) : List Nat := l.flatMap utf8EncodeChar

/-- UTF-8 encode a string. -/
def utf8Encode (s : String) : List Nat := utf8EncodeChars s.data

/-- `replaceSeperatorAndToUint8Array` (`server.js` lines 51-59): substitute
the four symbolic tokens, in source order FS, SO, GS, SI, each globally,
then UTF-8 encode the result. -/
def replaceSeperatorAndToUint8Array (input : String) : List Nat :=
  let t1 := jsReplaceAll "<FS>".data FS.data input.data
  let t2 := jsReplaceAll "<SO>".data SO.data t1
  let t3 := jsReplaceAll "<GS>".data GS.data t2
  let t4 := jsReplaceAll "<SI>".data SI.data t3
  utf8EncodeChars t4

/-- JS `v || fallback` on an optional string value: the value when present
and truthy (non-empty), the fallback otherwise. -/
def jsOrElse (v : Option String) (fallback : String) : String :=
  match v with
  | some s => if s = "" then fallback else s
  | none => fallback

/-- `getResponseMessage` (`server.js` lines 105-107):
`messageMapping[opcode] || ("Unknown opcode: " + opcode)`, the mapping
being an object read from configuration, modelled as an association list. -/
def getResponseMessage (mapping : List (String × String)) (opcode : String) : String :=
  jsOrElse (mapping.lookup opcode) ("Unknown opcode: " ++ opcode)

/-- `appendLength` (`server.js` lines 114-131): prepend
`[(len >>> 8) & 0xff, len & 0xff]` to the data (`>>>` acts on the length
as a 32-bit unsigned value). -/
def appendLength (data : List Nat) : List Nat :=
  let len := data.length
  (((len % 4294967296) >>> 8) % 256) :: (len % 256) :: data

/-- The big-endian 2-byte encoding of a length below 2^16. -/
def be16 (n : Nat) : List Nat := [n / 256, n % 256]

/-- The per-data-event behaviour of the TCP connection handler
(`server.js` lines 140-167): extract the opcode (bail out when falsy),
resolve the response (bail out when falsy), and frame the encoded
response for the delayed write. `none` means nothing is sent. -/
def handleData (mapping : List (String × String)) (data : List Nat) : Option (List Nat) :=
  match extractOpcode data with
  | none => none
  | some opcode =>
    if opcode = "" then none
    else
      let responseMessage := getResponseMessage mapping opcode
      if responseMessage = "" then none
      else some (appendLength (replaceSeperatorAndToUint8Array responseMessage))

/-- Whether `pat` occurs as a contiguous (non-empty) substring. -/
def containsPat (pat : List Char) : List Char → Bool
  | [] => false
  | c :: rest => (!pat.isEmpty && pat.isPrefixOf (c :: rest)) || containsPat pat rest

/-- Modelled from the spec: the token-reverse step of the round-trip
property (section 8) — UTF-8 decode the bytes, then substitute each
control character back to its symbolic token. It has no counterpart in
`server.js`. -/
def tokenReverse (bytes : List Nat) : String :=
  let s := utf8DecodeReplace bytes
  let r1 := jsReplaceAll FS.data "<FS>".data s
  let r2 := jsReplaceAll SO.data "<SO>".data r1
  let r3 := jsReplaceAll GS.data "<GS>".data r2
  let r4 := jsReplaceAll SI.data "<SI>".data r3
  String.mk r4

/-! ### Basic lemmas about the embedded operations -/

theorem jsReplaceAllAux_congr (pat rep : List Char) :
    ∀ (f1 f2 : Nat) (s : List Char), s.length ≤ f1 → s.length ≤ f2 →
      jsReplaceAllAux pat rep f1 s = jsReplaceAllAux pat rep f2 s := by
  intro f1
  induction f1 with
  | zero =>
    intro f2 s h1 _
    have hs : s = [] := by
      cases s with
      | nil => rfl
      | cons c cs => simp at h1
    subst hs
    cases f2 <;> simp [jsReplaceAllAux]
  | succ f ih =>
    intro f2 s h1 h2
    cases s with
    | nil => cases f2 <;> simp [jsReplaceAllAux]
    | cons c cs =>
      cases f2 with
      | zero => simp at h2
      | succ g =>
        simp only [jsReplaceAllAux]
        by_cases hc : pat ≠ [] ∧ pat.isPrefixOf (c :: cs)
        · simp only [if_pos hc]
          have hp : 0 < pat.length := List.length_pos.mpr hc.1
          simp only [List.length_cons] at h1 h2
          congr 1
          apply ih
          · simp only [List.length_drop, List.length_cons]; omega
          · simp only [List.length_drop, List.length_cons]; omega
        · simp only [if_neg hc]
          simp only [List.length_cons] at h1 h2
          congr 1
          apply ih <;> omega

theorem jsReplaceAll_nil (pat rep : List Char) : jsReplaceAll pat rep [] = [] := rfl

theorem jsReplaceAll_cons_pos (pat rep : List Char) (c : Char) (rest : List Char)
    (h1 : pat ≠ []) (h2 : pat.isPrefixOf (c :: rest)) :
    jsReplaceAll pat rep (c :: rest) =
      rep ++ jsReplaceAll pat rep ((c :: rest).drop pat.length) := by
  have hp : 0 < pat.length := List.length_pos.mpr h1
  show jsReplaceAllAux pat rep (c :: rest).length (c :: rest) = _
  simp only [List.length_cons, jsReplaceAllAux, if_pos (And.intro h1 h2)]
  congr 1
  apply jsReplaceAllAux_congr
  · simp only [List.length_drop, List.length_cons]; omega
  · exact Nat.le_refl _

theorem jsReplaceAll_cons_neg (pat rep : List Char) (c : Char) (rest : List Char)
    (h : ¬(pat ≠ [] ∧ pat.isPrefixOf (c :: rest))) :
    jsReplaceAll pat rep (c :: rest) = c :: jsReplaceAll pat rep rest := by
  show jsReplaceAllAux pat rep (c :: rest).length (c :: rest) = _
  simp only [List.length_cons, jsReplaceAllAux, if_neg h]
  rfl

theorem isPrefixOf_false_of_head {p c : Char} {pt rest : List Char} (h : p ≠ c) :
    (p :: pt).isPrefixOf (c :: rest) = false := by
  rw [Bool.eq_false_iff]
  intro hb
  rw [List.isPrefixOf_iff_prefix, List.cons_prefix_cons] at hb
  exact h hb.1

theorem isPrefixOf_false_of_second {p1 p2 c1 c2 : Char} {pt rest : List Char} (h : p2 ≠ c2) :
    (p1 :: p2 :: pt).isPrefixOf (c1 :: c2 :: rest) = false := by
  rw [Bool.eq_false_iff]
  intro hb
  rw [List.isPrefixOf_iff_prefix, List.cons_prefix_cons, List.cons_prefix_cons] at hb
  exact h hb.2.1

theorem jsReplaceAll_skip (pat rep : List Char) (hpat : pat.head? = some (Char.ofNat 0x3C)) :
    ∀ (a s : List Char), Char.ofNat 0x3C ∉ a →
      jsReplaceAll pat rep (a ++ s) = a ++ jsReplaceAll pat rep s := by
  intro a
  induction a with
  | nil => intro s _; rfl
  | cons c a ih =>
    intro s ha
    have hc : Char.ofNat 0x3C ≠ c := fun h => ha (h ▸ List.mem_cons_self c a)
    obtain ⟨p, pt, hp⟩ : ∃ p pt, pat = p :: pt := by
      cases pat with
      | nil => simp at hpat
      | cons p pt => exact ⟨p, pt, rfl⟩
    have hphead : p = Char.ofNat 0x3C := by
      rw [hp] at hpat; simpa using hpat
    have hng : ¬(pat ≠ [] ∧ pat.isPrefixOf (c :: (a ++ s))) := by
      rintro ⟨-, hpre⟩
      rw [hp, hphead] at hpre
      rw [isPrefixOf_false_of_head hc] at hpre
      simp at hpre
    rw [List.cons_append, jsReplaceAll_cons_neg _ _ _ _ hng,
      ih s (fun hh => ha (List.mem_cons_of_mem c hh))]
    simp

theorem jsReplaceAll_fix (pat rep : List Char) (hpat : pat.head? = some (Char.ofNat 0x3C))
    (a : List Char) (ha : Char.ofNat 0x3C ∉ a) : jsReplaceAll pat rep a = a := by
  have := jsReplaceAll_skip pat rep hpat a [] ha
  simpa [jsReplaceAll_nil] using this

theorem jsReplaceAll_match (pat rep : List Char) (h : pat ≠ []) (s : List Char) :
    jsReplaceAll pat rep (pat ++ s) = rep ++ jsReplaceAll pat rep s := by
  obtain ⟨p, pt, hp⟩ : ∃ p pt, pat = p :: pt := by
    cases pat with
    | nil => exact absurd rfl h
    | cons p pt => exact ⟨p, pt, rfl⟩
  have hpre : pat.isPrefixOf (pat ++ s) := by
    simp [List.isPrefixOf_iff_prefix]
  rw [hp] at hpre ⊢
  rw [List.cons_append, jsReplaceAll_cons_pos _ _ _ _ (by simp) (by simp only [List.cons_append] at hpre; exact hpre)]
  rw [← List.cons_append, ← hp]
  rw [show (pat ++ s).drop pat.length = s from List.drop_left pat s]

theorem utf8Decode_step1 {b : Nat} (h : b < 0x80) (rest : List Nat) :
    utf8DecodeReplace (b :: rest) = Char.ofNat b :: utf8DecodeReplace rest := by
  conv_lhs => unfold utf8DecodeReplace
  rw [if_pos h]

theorem utf8Decode_step2 {b c1 : Nat} (hb1 : ¬ b < 0xC2) (hb2 : b < 0xE0)
    (hc1 : 0x80 ≤ c1 ∧ c1 < 0xC0) (rest : List Nat) :
    utf8DecodeReplace (b :: c1 :: rest) =
      Char.ofNat ((b - 0xC0) * 64 + (c1 - 0x80)) :: utf8DecodeReplace rest := by
  conv_lhs => unfold utf8DecodeReplace
  rw [if_neg (by omega), if_neg hb1, if_pos hb2]
  try dsimp only
  rw [if_pos hc1]

theorem utf8Decode_step3 {b c1 c2 : Nat} (hb1 : ¬ b < 0xE0) (hb2 : b < 0xF0)
    (hc1 : (if b = 0xE0 then 0xA0 else 0x80) ≤ c1 ∧ c1 ≤ (if b = 0xED then 0x9F else 0xBF))
    (hc2 : 0x80 ≤ c2 ∧ c2 < 0xC0) (rest : List Nat) :
    utf8DecodeReplace (b :: c1 :: c2 :: rest) =
      Char.ofNat ((b - 0xE0) * 4096 + (c1 - 0x80) * 64 + (c2 - 0x80)) ::
        utf8DecodeReplace rest := by
  conv_lhs => unfold utf8DecodeReplace
  rw [if_neg (by omega), if_neg (by omega), if_neg hb1, if_pos hb2]
  try dsimp only
  rw [if_pos hc1]
  try dsimp only
  rw [if_pos hc2]

theorem utf8Decode_step4 {b c1 c2 c3 : Nat} (hb1 : ¬ b < 0xF0) (hb2 : b < 0xF5)
    (hc1 : (if b = 0xF0 then 0x90 else 0x80) ≤ c1 ∧ c1 ≤ (if b = 0xF4 then 0x8F else 0xBF))
    (hc2 : 0x80 ≤ c2 ∧ c2 < 0xC0) (hc3 : 0x80 ≤ c3 ∧ c3 < 0xC0) (rest : List Nat) :
    utf8DecodeReplace (b :: c1 :: c2 :: c3 :: rest) =
      Char.ofNat ((b - 0xF0) * 262144 + (c1 - 0x80) * 4096 + (c2 - 0x80) * 64 + (c3 - 0x80)) ::
        utf8DecodeReplace rest := by
  conv_lhs => unfold utf8DecodeReplace
  rw [if_neg (by omega), if_neg (by omega), if_neg (by omega), if_neg hb1, if_pos hb2]
  try dsimp only
  rw [if_pos hc1]
  try dsimp only
  rw [if_pos hc2]
  try dsimp only
  rw [if_pos hc3]

theorem utf8DecodeReplace_encodeChar (c : Char) (rest : List Nat) :
    utf8DecodeReplace (utf8EncodeChar c ++ rest) = c :: utf8DecodeReplace rest := by
  have hval : c.toNat < 0xD800 ∨ (0xDFFF < c.toNat ∧ c.toNat < 0x110000) := c.valid
  by_cases h1 : c.toNat < 0x80
  · rw [show utf8EncodeChar c = [c.toNat] from by simp only [utf8EncodeChar]; rw [if_pos h1]]
    simp only [List.cons_append, List.nil_append]
    rw [utf8Decode_step1 h1, Char.ofNat_toNat]
  · by_cases h2 : c.toNat < 0x800
    · rw [show utf8EncodeChar c = [0xC0 + c.toNat / 64, 0x80 + c.toNat % 64] from by
        simp only [utf8EncodeChar]; rw [if_neg h1, if_pos h2]]
      simp only [List.cons_append, List.nil_append]
      rw [utf8Decode_step2 (by omega) (by omega) (by omega)]
      rw [show (0xC0 + c.toNat / 64 - 0xC0) * 64 + (0x80 + c.toNat % 64 - 0x80) = c.toNat from by
        omega]
      rw [Char.ofNat_toNat]
    · by_cases h3 : c.toNat < 0x10000
      · rw [show utf8EncodeChar c =
            [0xE0 + c.toNat / 4096, 0x80 + (c.toNat / 64) % 64, 0x80 + c.toNat % 64] from by
          simp only [utf8EncodeChar]; rw [if_neg h1, if_neg h2, if_pos h3]]
        simp only [List.cons_append, List.nil_append]
        rw [utf8Decode_step3 (by omega) (by omega)
          (by constructor <;> split <;> omega) (by omega)]
        rw [show (0xE0 + c.toNat / 4096 - 0xE0) * 4096 +
            (0x80 + (c.toNat / 64) % 64 - 0x80) * 64 +
            (0x80 + c.toNat % 64 - 0x80) = c.toNat from by omega]
        rw [Char.ofNat_toNat]
      · rw [show utf8EncodeChar c =
            [0xF0 + c.toNat / 262144, 0x80 + (c.toNat / 4096) % 64,
              0x80 + (c.toNat / 64) % 64, 0x80 + c.toNat % 64] from by
          simp only [utf8EncodeChar]; rw [if_neg h1, if_neg h2, if_neg h3]]
        simp only [List.cons_append, List.nil_append]
        rw [utf8Decode_step4 (by omega) (by omega)
          (by constructor <;> split <;> omega) (by omega) (by omega)]
        rw [show (0xF0 + c.toNat / 262144 - 0xF0) * 262144 +
            (0x80 + (c.toNat / 4096) % 64 - 0x80) * 4096 +
            (0x80 + (c.toNat / 64) % 64 - 0x80) * 64 +
            (0x80 + c.toNat % 64 - 0x80) = c.toNat from by omega]
        rw [Char.ofNat_toNat]

theorem utf8DecodeReplace_encodeChars (l : List Char) :
    utf8DecodeReplace (utf8EncodeChars l) = l := by
  induction l with
  | nil => rfl
  | cons c cs ih =>
    show utf8DecodeReplace (utf8EncodeChar c ++ utf8EncodeChars cs) = c :: cs
    rw [utf8DecodeReplace_encodeChar, ih]

theorem jsReplaceAll_of_not_contains (pat rep : List Char) :
    ∀ s : List Char, containsPat pat s = false → jsReplaceAll pat rep s = s := by
  intro s
  induction s with
  | nil => intro _; rfl
  | cons c cs ih =>
    intro h
    simp only [containsPat, Bool.or_eq_false_iff, Bool.and_eq_false_iff] at h
    obtain ⟨h1, h2⟩ := h
    rw [jsReplaceAll_cons_neg _ _ _ _ ?hng, ih h2]
    case hng =>
      rintro ⟨hne, hpre⟩
      rcases h1 with h1 | h1
      · exact hne (by simpa using h1)
      · rw [h1] at hpre
        exact Bool.noConfusion hpre

theorem containsPat_singleton_eq_false (c : Char) :
    ∀ s : List Char, c ∉ s → containsPat [c] s = false := by
  intro s
  induction s with
  | nil => intro _; rfl
  | cons d ds ih =>
    intro h
    simp only [containsPat, Bool.or_eq_false_iff]
    constructor
    · rw [isPrefixOf_false_of_head
        (fun hh => h (by rw [hh]; exact List.mem_cons_self d ds))]
      simp
    · exact ih (fun hh => h (List.mem_cons_of_mem d hh))

theorem extractOpcode_char (message : List Nat) :
    extractOpcode message =
      if (splitUint8ArrayBy0x1C (message.drop 2) false).get? 2 = some "B0000"
      then some "GIS" else none := by
  simp only [extractOpcode]
  by_cases h : message.length ≤ 2
  · rw [if_pos h]
    rw [List.drop_eq_nil_of_le h]
    rw [show splitUint8ArrayBy0x1C [] false = [] from by decide]
    simp
  · rw [if_neg h]
    by_cases h0 : (splitUint8ArrayBy0x1C (message.drop 2) false).length = 0
    · rw [if_pos h0]
      rw [List.length_eq_zero.mp h0]
      simp
    · rw [if_neg h0]

theorem extractOpcode_some_eq {message : List Nat} {op : String}
    (h : extractOpcode message = some op) : op = "GIS" := by
  rw [extractOpcode_char] at h
  by_cases hc : (splitUint8ArrayBy0x1C (message.drop 2) false).get? 2 = some "B0000"
  · rw [if_pos hc] at h
    exact (Option.some.inj h).symm
  · rw [if_neg hc] at h
    exact Option.noConfusion h

theorem unknown_opcode_ne_empty (opcode : String) : "Unknown opcode: " ++ opcode ≠ "" := by
  intro h
  have hlen := congrArg String.length h
  rw [String.length_append] at hlen
  rw [show ("Unknown opcode: " : String).length = 16 from rfl,
    show ("" : String).length = 0 from rfl] at hlen
  omega

theorem getResponseMessage_ne_empty (mapping : List (String × String)) (opcode : String) :
    getResponseMessage mapping opcode ≠ "" := by
  unfold getResponseMessage jsOrElse
  cases hm : mapping.lookup opcode with
  | none => exact unknown_opcode_ne_empty opcode
  | some v =>
    show (if v = "" then "Unknown opcode: " ++ opcode else v) ≠ ""
    by_cases hv : v = ""
    · rw [if_pos hv]
      exact unknown_opcode_ne_empty opcode
    · rw [if_neg hv]
      exact hv

theorem stage_fs (a b : List Char) (ha : Char.ofNat 0x3C ∉ a) (hb : Char.ofNat 0x3C ∉ b) :
    jsReplaceAll "<FS>".data FS.data (a ++ ("<FS>".data ++ ("<GS>".data ++ b))) =
      a ++ (Char.ofNat 0x1C :: Char.ofNat 0x3C :: 'G' :: 'S' :: '>' :: b) := by
  rw [jsReplaceAll_skip _ _ (by decide) a _ ha]
  rw [jsReplaceAll_match _ _ (by decide)]
  rw [show "<GS>".data ++ b = Char.ofNat 0x3C :: 'G' :: 'S' :: '>' :: b from rfl]
  rw [jsReplaceAll_cons_neg _ _ _ _ ?hng]
  case hng =>
    rintro ⟨-, hpre⟩
    rw [show "<FS>".data = '<' :: 'F' :: 'S' :: '>' :: [] from rfl] at hpre
    rw [isPrefixOf_false_of_second (show ('F' : Char) ≠ 'G' from by decide)] at hpre
    exact Bool.noConfusion hpre
  rw [jsReplaceAll_fix _ _ (by decide) _ ?hnb]
  case hnb =>
    intro hmem
    rcases List.mem_cons.mp hmem with h | hmem
    · exact absurd h (by decide)
    rcases List.mem_cons.mp hmem with h | hmem
    · exact absurd h (by decide)
    rcases List.mem_cons.mp hmem with h | hmem
    · exact absurd h (by decide)
    exact hb hmem
  rfl

theorem stage_so (a b : List Char) (ha : Char.ofNat 0x3C ∉ a) (hb : Char.ofNat 0x3C ∉ b) :
    jsReplaceAll "<SO>".data SO.data
        (a ++ (Char.ofNat 0x1C :: Char.ofNat 0x3C :: 'G' :: 'S' :: '>' :: b)) =
      a ++ (Char.ofNat 0x1C :: Char.ofNat 0x3C :: 'G' :: 'S' :: '>' :: b) := by
  rw [show a ++ (Char.ofNat 0x1C :: Char.ofNat 0x3C :: 'G' :: 'S' :: '>' :: b) =
      (a ++ [Char.ofNat 0x1C]) ++ (Char.ofNat 0x3C :: 'G' :: 'S' :: '>' :: b) from by simp]
  rw [jsReplaceAll_skip _ _ (by decide) _ _ ?hfs]
  case hfs =>
    intro hmem
    rcases List.mem_append.mp hmem with h | h
    · exact ha h
    rcases List.mem_cons.mp h with h | h
    · exact absurd h (by decide)
    exact absurd h (List.not_mem_nil _)
  rw [jsReplaceAll_cons_neg _ _ _ _ ?hng]
  case hng =>
    rintro ⟨-, hpre⟩
    rw [show "<SO>".data = '<' :: 'S' :: 'O' :: '>' :: [] from rfl] at hpre
    rw [isPrefixOf_false_of_second (show ('S' : Char) ≠ 'G' from by decide)] at hpre
    exact Bool.noConfusion hpre
  rw [jsReplaceAll_fix _ _ (by decide) _ ?hnb]
  case hnb =>
    intro hmem
    rcases List.mem_cons.mp hmem with h | hmem
    · exact absurd h (by decide)
    rcases List.mem_cons.mp hmem with h | hmem
    · exact absurd h (by decide)
    rcases List.mem_cons.mp hmem with h | hmem
    · exact absurd h (by decide)
    exact hb hmem

theorem stage_gs (a b : List Char) (ha : Char.ofNat 0x3C ∉ a) (hb : Char.ofNat 0x3C ∉ b) :
    jsReplaceAll "<GS>".data GS.data
        (a ++ (Char.ofNat 0x1C :: Char.ofNat 0x3C :: 'G' :: 'S' :: '>' :: b)) =
      a ++ (Char.ofNat 0x1C :: Char.ofNat 0x1D :: b) := by
  rw [show a ++ (Char.ofNat 0x1C :: Char.ofNat 0x3C :: 'G' :: 'S' :: '>' :: b) =
      (a ++ [Char.ofNat 0x1C]) ++ ("<GS>".data ++ b) from by
    rw [show "<GS>".data = ['<', 'G', 'S', '>'] from rfl]; simp]
  rw [jsReplaceAll_skip _ _ (by decide) _ _ ?hfs]
  case hfs =>
    intro hmem
    rcases List.mem_append.mp hmem with h | h
    · exact ha h
    rcases List.mem_cons.mp h with h | h
    · exact absurd h (by decide)
    exact absurd h (List.not_mem_nil _)
  rw [jsReplaceAll_match _ _ (by decide)]
  rw [jsReplaceAll_fix _ _ (by decide) _ hb]
  rw [show GS.data = [Char.ofNat 0x1D] from rfl]
  simp

theorem stage_si (a b : List Char) (ha : Char.ofNat 0x3C ∉ a) (hb : Char.ofNat 0x3C ∉ b) :
    jsReplaceAll "<SI>".data SI.data (a ++ (Char.ofNat 0x1C :: Char.ofNat 0x1D :: b)) =
      a ++ (Char.ofNat 0x1C :: Char.ofNat 0x1D :: b) := by
  rw [jsReplaceAll_fix _ _ (by decide) _ ?hn]
  case hn =>
    intro hmem
    rcases List.mem_append.mp hmem with h | h
    · exact ha h
    rcases List.mem_cons.mp h with h | h
    · exact absurd h (by decide)
    rcases List.mem_cons.mp h with h | h
    · exact absurd h (by decide)
    exact hb h

/-! ### Claims -/

/-- C1: for every inbound byte buffer, the frame decoder `extractOpcode`
returns the opcode GIS exactly when the segment at index 2 of the
0x1C-split of the buffer minus its first 2 bytes (empty segments
discarded) is the text B0000, and returns none for any other value at
that position; no other opcode is ever produced. -/
theorem C1_extractOpcode_opcode_rule (message : List Nat) :
    extractOpcode message =
      if (splitUint8ArrayBy0x1C (message.drop 2) false).get? 2 = some "B0000"
      then some "GIS" else none :=
  extractOpcode_char message

/-- C2: end-to-end scenario with mapping GIS ↦ Hello and an inbound buffer
of 2 header bytes, the bytes of xx, 0x1C, the bytes of yy, 0x1C, the
bytes of B0000: decode yields opcode GIS, the resolver yields Hello, the
encoder yields the UTF-8 bytes of Hello, and the frame encoder yields
0x00 0x05 followed by those bytes. -/
theorem C2_end_to_end_scenario (h1 h2 : Nat) :
    extractOpcode (h1 :: h2 :: [120, 120, 0x1C, 121, 121, 0x1C, 66, 48, 48, 48, 48]) =
      some "GIS" ∧
    getResponseMessage [("GIS", "Hello")] "GIS" = "Hello" ∧
    replaceSeperatorAndToUint8Array "Hello" = [0x48, 0x65, 0x6C, 0x6C, 0x6F] ∧
    appendLength [0x48, 0x65, 0x6C, 0x6C, 0x6F] = [0x00, 0x05, 0x48, 0x65, 0x6C, 0x6C, 0x6F] := by
  refine ⟨?_, by decide, by decide, by decide⟩
  rw [extractOpcode_char]
  rw [show (h1 :: h2 :: [120, 120, 0x1C, 121, 121, 0x1C, 66, 48, 48, 48, 48]).drop 2 =
      [120, 120, 0x1C, 121, 121, 0x1C, 66, 48, 48, 48, 48] from rfl]
  decide

/-- C3: the claim states that `appendLength` raises an explicit error for
a payload of length 65536; the code instead silently wraps, returning the
corrupt length prefix 0x00 0x00 followed by the unchanged payload. -/
theorem C3_appendLength_wraps_at_65536 :
    appendLength (List.replicate 65536 120) = 0 :: 0 :: List.replicate 65536 120 := by
  simp only [appendLength, List.length_replicate]
  rw [show ((65536 % 4294967296) >>> 8) % 256 = 0 from by decide,
    show 65536 % 256 = 0 from by decide]

/-- C4 (counterexample): with the mapping GIS ↦ empty text, the opcode GIS
is a key of the mapping, yet the resolver returns the fallback rather
than the mapped text — refuting the claim that the mapped text is
returned whatever it is. -/
theorem C4_counterexample_empty_mapped_text :
    List.lookup "GIS" [("GIS", "")] = some "" ∧
    getResponseMessage [("GIS", "")] "GIS" = "Unknown opcode: GIS" ∧
    ("Unknown opcode: GIS" : String) ≠ "" :=
  ⟨by decide, by decide, by decide⟩

/-- C4 (amended): the resolver `getResponseMessage` returns the mapped
text when the opcode is a key of the mapping and the mapped text is
non-empty; when the opcode is absent, or its mapped text is the empty
string, it returns the text "Unknown opcode: " followed by the opcode; it
never returns none and never throws (it is total into strings). -/
theorem C4_resolver_amended (mapping : List (String × String)) (opcode : String) :
    (∀ v, mapping.lookup opcode = some v → v ≠ "" →
      getResponseMessage mapping opcode = v) ∧
    (mapping.lookup opcode = none →
      getResponseMessage mapping opcode = "Unknown opcode: " ++ opcode) ∧
    (mapping.lookup opcode = some "" →
      getResponseMessage mapping opcode = "Unknown opcode: " ++ opcode) := by
  refine ⟨?_, ?_, ?_⟩
  · intro v hv hne
    simp only [getResponseMessage, jsOrElse, hv]
    rw [if_neg hne]
  · intro hv
    simp only [getResponseMessage, jsOrElse, hv]
  · intro hv
    simp only [getResponseMessage, jsOrElse, hv]
    rw [if_pos trivial]

/-- C4 (witness): the amended resolver claim at a concrete mapping. -/
theorem C4_resolver_amended_witness :
    getResponseMessage [("GIS", "Hello")] "GIS" = "Hello" :=
  (C4_resolver_amended [("GIS", "Hello")] "GIS").1 "Hello" (by decide) (by decide)

/-- C5: the response encoder substitutes the four symbolic tokens by their
control bytes (field-separator token to 0x1C, shift-out token to 0x0E,
group-separator token to 0x1D, shift-in token to 0x0F) and UTF-8 encodes
the result; in particular a field-separator token immediately followed by
a group-separator token yields the adjacent bytes 0x1C 0x1D at that
position. -/
theorem C5_encoder_substitution (a b : List Char)
    (ha : Char.ofNat 0x3C ∉ a) (hb : Char.ofNat 0x3C ∉ b) :
    replaceSeperatorAndToUint8Array "<FS>" = [0x1C] ∧
    replaceSeperatorAndToUint8Array "<SO>" = [0x0E] ∧
    replaceSeperatorAndToUint8Array "<GS>" = [0x1D] ∧
    replaceSeperatorAndToUint8Array "<SI>" = [0x0F] ∧
    replaceSeperatorAndToUint8Array (String.mk (a ++ ("<FS>".data ++ ("<GS>".data ++ b)))) =
      utf8EncodeChars a ++ [0x1C, 0x1D] ++ utf8EncodeChars b := by
  refine ⟨by decide, by decide, by decide, by decide, ?_⟩
  show utf8EncodeChars (jsReplaceAll "<SI>".data SI.data (jsReplaceAll "<GS>".data GS.data
    (jsReplaceAll "<SO>".data SO.data (jsReplaceAll "<FS>".data FS.data
      (a ++ ("<FS>".data ++ ("<GS>".data ++ b))))))) = _
  rw [stage_fs a b ha hb, stage_so a b ha hb, stage_gs a b ha hb, stage_si a b ha hb]
  rw [show a ++ (Char.ofNat 0x1C :: Char.ofNat 0x1D :: b) =
      a ++ ([Char.ofNat 0x1C, Char.ofNat 0x1D] ++ b) from rfl]
  unfold utf8EncodeChars
  rw [List.flatMap_append a _ utf8EncodeChar,
    List.flatMap_append [Char.ofNat 0x1C, Char.ofNat 0x1D] b utf8EncodeChar]
  rw [show ([Char.ofNat 0x1C, Char.ofNat 0x1D] : List Char).flatMap utf8EncodeChar =
      [0x1C, 0x1D] from by decide]
  simp

/-- C5 (witness): the encoder claim at concrete one-character flanks. -/
theorem C5_encoder_substitution_witness :
    replaceSeperatorAndToUint8Array
        (String.mk ("A".data ++ ("<FS>".data ++ ("<GS>".data ++ "B".data)))) =
      utf8EncodeChars "A".data ++ [0x1C, 0x1D] ++ utf8EncodeChars "B".data :=
  (C5_encoder_substitution "A".data "B".data (by decide) (by decide)).2.2.2.2

/-- C6: for every payload of length at most 65535, `appendLength` returns
the 2-byte big-endian encoding of the payload length followed by the
payload unchanged. -/
theorem C6_appendLength_be_prefix (data : List Nat) (h : data.length ≤ 65535) :
    appendLength data = be16 data.length ++ data := by
  simp only [appendLength, be16]
  rw [Nat.mod_eq_of_lt (show data.length < 4294967296 by omega)]
  rw [Nat.shiftRight_eq_div_pow]
  rw [show (2 : Nat) ^ 8 = 256 from rfl]
  rw [Nat.mod_eq_of_lt (show data.length / 256 < 256 by omega)]
  simp

/-- C6 (witness): the framing claim at a concrete 3-byte payload. -/
theorem C6_appendLength_be_prefix_witness :
    ([9, 8, 7] : List Nat).length ≤ 65535 ∧
    appendLength [9, 8, 7] = be16 ([9, 8, 7] : List Nat).length ++ [9, 8, 7] :=
  ⟨by decide, C6_appendLength_be_prefix [9, 8, 7] (by decide)⟩

/-- C7: for every text free of the literal token spellings and free of the
raw control characters 0x1C, 0x1D, 0x0E and 0x0F, encoding with the
response encoder and then applying the token-reverse substitution (UTF-8
decode, control bytes back to symbolic tokens) returns the original
text. -/
theorem C7_encode_tokenReverse_roundtrip (s : String)
    (h1 : containsPat "<FS>".data s.data = false)
    (h2 : containsPat "<SO>".data s.data = false)
    (h3 : containsPat "<GS>".data s.data = false)
    (h4 : containsPat "<SI>".data s.data = false)
    (h5 : Char.ofNat 0x1C ∉ s.data) (h6 : Char.ofNat 0x1D ∉ s.data)
    (h7 : Char.ofNat 0x0E ∉ s.data) (h8 : Char.ofNat 0x0F ∉ s.data) :
    tokenReverse (replaceSeperatorAndToUint8Array s) = s := by
  show String.mk (jsReplaceAll SI.data "<SI>".data (jsReplaceAll GS.data "<GS>".data
    (jsReplaceAll SO.data "<SO>".data (jsReplaceAll FS.data "<FS>".data
      (utf8DecodeReplace (utf8EncodeChars (jsReplaceAll "<SI>".data SI.data
        (jsReplaceAll "<GS>".data GS.data (jsReplaceAll "<SO>".data SO.data
          (jsReplaceAll "<FS>".data FS.data s.data)))))))))) = s
  rw [jsReplaceAll_of_not_contains _ _ _ h1, jsReplaceAll_of_not_contains _ _ _ h2,
    jsReplaceAll_of_not_contains _ _ _ h3, jsReplaceAll_of_not_contains _ _ _ h4]
  rw [utf8DecodeReplace_encodeChars]
  rw [show FS.data = [Char.ofNat 0x1C] from rfl, show SO.data = [Char.ofNat 0x0E] from rfl,
    show GS.data = [Char.ofNat 0x1D] from rfl, show SI.data = [Char.ofNat 0x0F] from rfl]
  rw [jsReplaceAll_of_not_contains _ _ _ (containsPat_singleton_eq_false _ _ h5),
    jsReplaceAll_of_not_contains _ _ _ (containsPat_singleton_eq_false _ _ h7),
    jsReplaceAll_of_not_contains _ _ _ (containsPat_singleton_eq_false _ _ h6),
    jsReplaceAll_of_not_contains _ _ _ (containsPat_singleton_eq_false _ _ h8)]

/-- C7 (witness): the round trip at the concrete text Hi. -/
theorem C7_encode_tokenReverse_roundtrip_witness :
    tokenReverse (replaceSeperatorAndToUint8Array "Hi") = "Hi" :=
  C7_encode_tokenReverse_roundtrip "Hi" (by decide) (by decide) (by decide) (by decide)
    (by decide) (by decide) (by decide) (by decide)

/-- C8: for every inbound byte buffer for which stripping the first 2
bytes and splitting on 0x1C yields fewer than 3 non-empty segments, the
frame decoder returns none. -/
theorem C8_fewer_than_three_fields_none (message : List Nat)
    (h : (splitUint8ArrayBy0x1C (message.drop 2) false).length < 3) :
    extractOpcode message = none := by
  rw [extractOpcode_char]
  rw [List.get?_eq_none.mpr (by omega)]
  simp

/-- C8 (witness): a buffer whose split yields one non-empty segment. -/
theorem C8_fewer_than_three_fields_none_witness :
    (splitUint8ArrayBy0x1C (([0, 0, 65] : List Nat).drop 2) false).length < 3 ∧
    extractOpcode [0, 0, 65] = none :=
  ⟨by decide, C8_fewer_than_three_fields_none [0, 0, 65] (by decide)⟩

/-- C9: for every inbound byte buffer of length at most 2, the frame
decoder returns none. -/
theorem C9_short_buffer_none (message : List Nat) (h : message.length ≤ 2) :
    extractOpcode message = none := by
  unfold extractOpcode
  rw [if_pos h]

/-- C9 (witness): the short-buffer claim at a 2-byte buffer. -/
theorem C9_short_buffer_none_witness :
    ([1, 2] : List Nat).length ≤ 2 ∧ extractOpcode [1, 2] = none :=
  ⟨by decide, C9_short_buffer_none [1, 2] (by decide)⟩

/-- C10: for every opcode and mapping the resolver returns a non-empty
string — an empty (falsy) mapped text falls back to the never-empty
"Unknown opcode: " text — so once an opcode was derived, the connection
handler's branch that logs a missing response and sends nothing is
unreachable: the handler always frames and sends the resolved response. -/
theorem C10_resolver_nonempty_handler_sends (mapping : List (String × String))
    (o : String) (d : List Nat) :
    getResponseMessage mapping o ≠ "" ∧
    (∀ op, extractOpcode d = some op →
      handleData mapping d =
        some (appendLength (replaceSeperatorAndToUint8Array (getResponseMessage mapping op)))) := by
  refine ⟨getResponseMessage_ne_empty mapping o, ?_⟩
  intro op hop
  have hgis : op = "GIS" := extractOpcode_some_eq hop
  simp only [handleData, hop]
  rw [if_neg (show ¬ op = "" from by rw [hgis]; decide)]
  rw [if_neg (getResponseMessage_ne_empty mapping op)]

/-- C10 (witness): the handler claim at a concrete buffer deriving GIS. -/
theorem C10_resolver_nonempty_handler_sends_witness :
    getResponseMessage [] "GIS" ≠ "" ∧
    handleData [] [0, 0, 120, 120, 0x1C, 121, 121, 0x1C, 66, 48, 48, 48, 48] =
      some (appendLength (replaceSeperatorAndToUint8Array (getResponseMessage [] "GIS"))) :=
  ⟨(C10_resolver_nonempty_handler_sends [] "GIS" []).1,
    (C10_resolver_nonempty_handler_sends []  "GIS"
      [0, 0, 120, 120, 0x1C, 121, 121, 0x1C, 66, 48, 48, 48, 48]).2 "GIS" (by decide)⟩

end NdcHost
